import Mathlib

/-!
Verification of the deferred-reclamation subsystem of `urcu-defer.c`
(userspace RCU library, batch memory reclamation).

Shallow embedding conventions:
* Pointer-sized machine words (`void *`, `unsigned long`) are modelled as
  `Nat`.  Pointers coming from the client are < 2^64 (the word size), which
  appears as an explicit hypothesis where the bit-level encoding needs it.
* The per-queue indices `head` and `tail` are modelled as unbounded natural
  counters.  In C they are `unsigned long` values that wrap modulo 2^64, and
  all uses are of the wrap-safe difference `head - tail`, equal to the `Nat`
  difference whenever `tail ≤ head` and `head - tail < 2^64` (both maintained
  by the queue invariant, which bounds the difference by the queue size).
* Ring-buffer cells are a total function `Nat → Nat` from slot position to
  stored word; stores are `Function.update` at `index &&& DEFER_QUEUE_MASK`,
  exactly the C indexing expression.
* The locks serialize all queue/registry mutation, so operations are modelled
  as sequential state transformers.  `assert()` failures and NULL-pointer
  dereferences are modelled by returning `none`.
* Callback invocations `fct(p)` are recorded as `(fct, p)` pairs in an output
  list, in invocation order.  Calls to the external grace-period primitive
  `synchronize_rcu()` are recorded as a `Bool` (whether it was invoked).
-/

/-- Modelled from the spec: `urcu-defer-static.h` is not part of the provided
sources.  The spec fixes `DEFER_QUEUE_SIZE` as a power of two (`2^12` in the
library). -/
def DEFER_QUEUE_SIZE : Nat := 2 ^ 12

/-- `DEFER_QUEUE_MASK = DEFER_QUEUE_SIZE - 1`, the ring-index mask. -/
def DEFER_QUEUE_MASK : Nat := DEFER_QUEUE_SIZE - 1

/-- The machine word size: slots hold pointer-sized (64-bit) values. -/
def wordSize : Nat := 2 ^ 64

/-- Modelled from the spec: the low tag bit used to mark function-pointer
slots (`DQ_FCT_BIT` in `urcu-defer-static.h`). -/
def DQ_FCT_BIT : Nat := 1

/-- Modelled from the spec: the reserved sentinel word (`DQ_FCT_MARK`,
`~DQ_FCT_BIT` as an `unsigned long`).  Its low bit is clear, which the
decoder's test order requires: the low-bit test is checked before the
sentinel test (spec section 4.2). -/
def DQ_FCT_MARK : Nat := wordSize - 2

/-- Modelled from the spec: `DQ_IS_FCT_BIT(x)` tests the low tag bit. -/
def DQ_IS_FCT_BIT (x : Nat) : Bool := x &&& DQ_FCT_BIT != 0

/-- Modelled from the spec: `DQ_SET_FCT_BIT(x)` sets the low tag bit. -/
def DQ_SET_FCT_BIT (x : Nat) : Nat := x ||| DQ_FCT_BIT

/-- Modelled from the spec: `DQ_CLEAR_FCT_BIT(x)` clears the low tag bit
(`x & ~DQ_FCT_BIT` truncated to the word size). -/
def DQ_CLEAR_FCT_BIT (x : Nat) : Nat := x &&& (wordSize - 2)

/-- `struct defer_queue`: one registered writer's ring buffer.
`q` is the cell contents (total over slot positions; the C buffer has
`DEFER_QUEUE_SIZE` cells indexed by `index &&& DEFER_QUEUE_MASK`). -/
structure DeferQueue where
  head : Nat
  tail : Nat
  last_fct_in : Nat
  last_fct_out : Nat
  q : Nat → Nat

/-- `_STORE_SHARED(defer_queue.q[idx & DEFER_QUEUE_MASK], v)`. -/
def writeSlot (dq : DeferQueue) (idx v : Nat) : DeferQueue :=
  { dq with q := Function.update dq.q (idx &&& DEFER_QUEUE_MASK) v }

/-- The decode loop of `rcu_defer_barrier_queue` (urcu-defer.c:169-183):
walk `i` from `tail` to `head`, decoding tagged function slots, sentinel
escapes and bare argument slots, recording each invocation `fct(p)`.
`fuel` bounds the iteration count (each iteration advances `i` by at least
one); exhausting it models the C loop never reaching `i == head`. -/
def rcu_defer_barrier_queue_loop (qb : Nat → Nat) (head : Nat) :
    Nat → Nat → Nat → Option (Nat × List (Nat × Nat))
  | 0, i, lfo => if i = head then some (lfo, []) else none
  | fuel + 1, i, lfo =>
    if i = head then some (lfo, [])
    else
      let p := qb (i &&& DEFER_QUEUE_MASK)
      if DQ_IS_FCT_BIT p then
        let lfo' := DQ_CLEAR_FCT_BIT p
        let p' := qb ((i + 1) &&& DEFER_QUEUE_MASK)
        match rcu_defer_barrier_queue_loop qb head fuel (i + 2) lfo' with
        | none => none
        | some (l, cs) => some (l, (lfo', p') :: cs)
      else if p = DQ_FCT_MARK then
        let f := qb ((i + 1) &&& DEFER_QUEUE_MASK)
        let p' := qb ((i + 2) &&& DEFER_QUEUE_MASK)
        match rcu_defer_barrier_queue_loop qb head fuel (i + 3) f with
        | none => none
        | some (l, cs) => some (l, (f, p') :: cs)
      else
        match rcu_defer_barrier_queue_loop qb head fuel (i + 1) lfo with
        | none => none
        | some (l, cs) => some (l, (lfo, p) :: cs)

/-- `rcu_defer_barrier_queue(queue, head)` (urcu-defer.c:157-186): drain the
range `[tail, head)`, then store `tail := i` (on normal exit `i = head`).
Returns the drained queue and the invoked `(fct, arg)` pairs in order. -/
def rcu_defer_barrier_queue (dq : DeferQueue) (head : Nat) :
    Option (DeferQueue × List (Nat × Nat)) :=
  match rcu_defer_barrier_queue_loop dq.q head (head - dq.tail) dq.tail dq.last_fct_out with
  | none => none
  | some (lfo, cs) => some ({ dq with tail := head, last_fct_out := lfo }, cs)

/-- `_rcu_defer_barrier_thread()` (urcu-defer.c:188-198): snapshot own head;
return if empty; otherwise `synchronize_rcu()` then drain to the snapshot.
The `Bool` records whether `synchronize_rcu()` was called. -/
def _rcu_defer_barrier_thread (dq : DeferQueue) :
    Option (DeferQueue × List (Nat × Nat) × Bool) :=
  let head := dq.head
  let num_items := head - dq.tail
  if num_items = 0 then some (dq, [], false)
  else
    match rcu_defer_barrier_queue dq head with
    | none => none
    | some (dq', cs) => some (dq', cs, true)

/-- The slot-writing tail of `_rcu_defer_queue` (urcu-defer.c:273-305): the
function-pointer elision / escape logic, the argument store, and the `head`
publication.  The local variable `head` starts from `dq.head`. -/
def defer_enqueue_slots (dq : DeferQueue) (fct p : Nat) : DeferQueue :=
  let head := dq.head
  let step :=
    if dq.last_fct_in ≠ fct then
      let dq1 := { dq with last_fct_in := fct }
      if DQ_IS_FCT_BIT fct = true ∨ fct = DQ_FCT_MARK then
        (writeSlot (writeSlot dq1 head DQ_FCT_MARK) (head + 1) fct, head + 2)
      else
        (writeSlot dq1 head (DQ_SET_FCT_BIT fct), head + 1)
    else
      if DQ_IS_FCT_BIT p = true ∨ p = DQ_FCT_MARK then
        (writeSlot (writeSlot dq head DQ_FCT_MARK) (head + 1) fct, head + 2)
      else
        (dq, head)
  let dq2 := writeSlot step.1 step.2 p
  { dq2 with head := step.2 + 1 }

/-- `_rcu_defer_queue(fct, p)` (urcu-defer.c:252-311).  If the queue is
nearly full (`head - tail ≥ DEFER_QUEUE_SIZE - 2`), assert
`head - tail ≤ DEFER_QUEUE_SIZE`, self-drain via the thread barrier, and
assert the queue is then empty; then write the encoded slots.  Returns the
new queue, the pairs invoked during the self-drain (empty if none), and
whether `synchronize_rcu()` was called.  `none` models an assertion
failure or a diverging drain. -/
def _rcu_defer_queue (dq : DeferQueue) (fct p : Nat) :
    Option (DeferQueue × List (Nat × Nat) × Bool) :=
  let head := dq.head
  let tail := dq.tail
  if DEFER_QUEUE_SIZE - 2 ≤ head - tail then
    if head - tail ≤ DEFER_QUEUE_SIZE then
      match _rcu_defer_barrier_thread dq with
      | none => none
      | some (dq1, calls, s) =>
        if head - dq1.tail = 0 then
          some (defer_enqueue_slots dq1 fct p, calls, s)
        else none
    else none
  else some (defer_enqueue_slots dq fct p, [], false)

/-- Enqueue a whole list of `(fct, arg)` pairs by repeated `_rcu_defer_queue`
calls from the owning thread, collecting all pairs invoked during
backpressure self-drains, in order. -/
def enqueueAll : DeferQueue → List (Nat × Nat) → Option (DeferQueue × List (Nat × Nat))
  | dq, [] => some (dq, [])
  | dq, (f, p) :: fs =>
    match _rcu_defer_queue dq f p with
    | none => none
    | some (dq1, bp, _) =>
      match enqueueAll dq1 fs with
      | none => none
      | some (dq2, bps) => some (dq2, bp ++ bps)

/-! ### Arithmetic facts about the slot encoding -/

lemma and_mask_eq_mod (x : Nat) : x &&& DEFER_QUEUE_MASK = x % DEFER_QUEUE_SIZE := by
  have h := Nat.and_pow_two_sub_one_eq_mod x 12
  simpa [DEFER_QUEUE_MASK, DEFER_QUEUE_SIZE] using h

lemma queue_size_eq : DEFER_QUEUE_SIZE = 4096 := by
  norm_num [DEFER_QUEUE_SIZE]

lemma isFctBit_iff (x : Nat) : DQ_IS_FCT_BIT x = true ↔ x % 2 = 1 := by
  have h := Nat.and_one_is_mod x
  simp only [DQ_IS_FCT_BIT, DQ_FCT_BIT, bne_iff_ne, ne_eq, h]
  omega

lemma isFctBit_false_iff (x : Nat) : DQ_IS_FCT_BIT x = false ↔ x % 2 = 0 := by
  have h := isFctBit_iff x
  cases hb : DQ_IS_FCT_BIT x <;> simp_all

lemma setFctBit_eq (x : Nat) (h : x % 2 = 0) : DQ_SET_FCT_BIT x = x + 1 := by
  have h2 : (x ||| 1) % 2 = 1 := (Nat.or_mod_two_eq_one).mpr (Or.inr rfl)
  have h3 : (x ||| 1) / 2 = x / 2 := by
    rw [Nat.or_div_two]
    simp
  unfold DQ_SET_FCT_BIT DQ_FCT_BIT
  omega

lemma isFctBit_setFctBit (x : Nat) (h : x % 2 = 0) :
    DQ_IS_FCT_BIT (DQ_SET_FCT_BIT x) = true := by
  rw [setFctBit_eq x h, isFctBit_iff]
  omega

lemma clearFctBit_setFctBit (x : Nat) (h : x % 2 = 0) (hlt : x < wordSize) :
    DQ_CLEAR_FCT_BIT (DQ_SET_FCT_BIT x) = x := by
  rw [setFctBit_eq x h]
  unfold DQ_CLEAR_FCT_BIT wordSize
  unfold wordSize at hlt
  have hd : ((x + 1) &&& (2 ^ 64 - 2)) / 2 = x / 2 := by
    rw [Nat.and_div_two]
    have h2 : (2 ^ 64 - 2) / 2 = 2 ^ 63 - 1 := by norm_num
    rw [h2, Nat.and_pow_two_sub_one_eq_mod]
    have hx2 : (x + 1) / 2 = x / 2 := by omega
    rw [hx2, Nat.mod_eq_of_lt]
    omega
  have hm : ((x + 1) &&& (2 ^ 64 - 2)) % 2 ≠ 1 := by
    have h1 := Nat.and_mod_two_eq_one (a := x + 1) (b := 2 ^ 64 - 2)
    omega
  have hb : ((x + 1) &&& (2 ^ 64 - 2)) % 2 < 2 := Nat.mod_lt _ (by omega)
  omega

lemma mark_mod_two : DQ_FCT_MARK % 2 = 0 := by
  norm_num [DQ_FCT_MARK, wordSize]

lemma isFctBit_mark : DQ_IS_FCT_BIT DQ_FCT_MARK = false := by
  rw [isFctBit_false_iff]
  exact mark_mod_two

lemma mask_idx_ne {a b : Nat} (hab : a < b) (hlt : b - a < DEFER_QUEUE_SIZE) :
    b &&& DEFER_QUEUE_MASK ≠ a &&& DEFER_QUEUE_MASK := by
  rw [and_mask_eq_mod, and_mask_eq_mod, queue_size_eq]
  rw [queue_size_eq] at hlt
  omega

/-! ### Well-formed encoded regions

`EncodedRange qb i h lfo lfo' ps` says: reading the ring cells of `qb` from
index `i` (exclusive `h`) with the decoder of `rcu_defer_barrier_queue`,
starting with decoder state `last_fct_out = lfo`, consumes exactly the range,
ends with decoder state `lfo'`, and produces the invocations `ps` in order.
The three cons constructors mirror the decoder's three branches. -/

inductive EncodedRange (qb : Nat → Nat) : Nat → Nat → Nat → Nat → List (Nat × Nat) → Prop where
  | nil (i lfo : Nat) : EncodedRange qb i i lfo lfo []
  | tag {i h lfo lfo' : Nat} {ps : List (Nat × Nat)}
      (hle : i + 2 ≤ h)
      (hbit : DQ_IS_FCT_BIT (qb (i &&& DEFER_QUEUE_MASK)) = true)
      (hrest : EncodedRange qb (i + 2) h (DQ_CLEAR_FCT_BIT (qb (i &&& DEFER_QUEUE_MASK))) lfo' ps) :
      EncodedRange qb i h lfo lfo'
        ((DQ_CLEAR_FCT_BIT (qb (i &&& DEFER_QUEUE_MASK)), qb ((i + 1) &&& DEFER_QUEUE_MASK)) :: ps)
  | mark {i h lfo lfo' : Nat} {ps : List (Nat × Nat)}
      (hle : i + 3 ≤ h)
      (hslot : qb (i &&& DEFER_QUEUE_MASK) = DQ_FCT_MARK)
      (hrest : EncodedRange qb (i + 3) h (qb ((i + 1) &&& DEFER_QUEUE_MASK)) lfo' ps) :
      EncodedRange qb i h lfo lfo'
        ((qb ((i + 1) &&& DEFER_QUEUE_MASK), qb ((i + 2) &&& DEFER_QUEUE_MASK)) :: ps)
  | arg {i h lfo lfo' : Nat} {ps : List (Nat × Nat)}
      (hle : i + 1 ≤ h)
      (hbit : DQ_IS_FCT_BIT (qb (i &&& DEFER_QUEUE_MASK)) = false)
      (hmark : qb (i &&& DEFER_QUEUE_MASK) ≠ DQ_FCT_MARK)
      (hrest : EncodedRange qb (i + 1) h lfo lfo' ps) :
      EncodedRange qb i h lfo lfo' ((lfo, qb (i &&& DEFER_QUEUE_MASK)) :: ps)

lemma EncodedRange.le {qb : Nat → Nat} {i h lfo lfo' : Nat} {ps : List (Nat × Nat)}
    (he : EncodedRange qb i h lfo lfo' ps) : i ≤ h := by
  induction he with
  | nil _ _ => exact Nat.le_refl _
  | tag hle _ _ _ => omega
  | mark hle _ _ _ => omega
  | arg hle _ _ _ _ => omega

lemma EncodedRange.self_inv {qb : Nat → Nat} {i lfo lfo' : Nat} {ps : List (Nat × Nat)}
    (he : EncodedRange qb i i lfo lfo' ps) : lfo' = lfo ∧ ps = [] := by
  cases he with
  | nil => exact ⟨rfl, rfl⟩
  | tag hle _ _ => omega
  | mark hle _ _ => omega
  | arg hle _ _ _ => omega

lemma EncodedRange.nil_inv {qb : Nat → Nat} {i h lfo lfo' : Nat}
    (he : EncodedRange qb i h lfo lfo' []) : i = h ∧ lfo' = lfo := by
  cases he with
  | nil => exact ⟨rfl, rfl⟩

lemma EncodedRange.decode {qb : Nat → Nat} {i h lfo lfo' : Nat} {ps : List (Nat × Nat)}
    (he : EncodedRange qb i h lfo lfo' ps) :
    ∀ fuel, h - i ≤ fuel → rcu_defer_barrier_queue_loop qb h fuel i lfo = some (lfo', ps) := by
  induction he with
  | nil j lfoj =>
    intro fuel _
    cases fuel <;> simp [rcu_defer_barrier_queue_loop]
  | @tag i h lfo lfo' ps hle hbit hrest ih =>
    intro fuel hf
    cases fuel with
    | zero => omega
    | succ f =>
      have hne : ¬ i = h := by omega
      have hrec := ih f (by omega)
      simp only [rcu_defer_barrier_queue_loop, if_neg hne, hbit, if_true, hrec]
  | @mark i h lfo lfo' ps hle hslot hrest ih =>
    intro fuel hf
    cases fuel with
    | zero => omega
    | succ f =>
      have hne : ¬ i = h := by omega
      have hrec := ih f (by omega)
      simp only [rcu_defer_barrier_queue_loop, if_neg hne, hslot, isFctBit_mark,
        Bool.false_eq_true, if_false, eq_self_iff_true, if_true, hrec]
  | @arg i h lfo lfo' ps hle hbit hmark hrest ih =>
    intro fuel hf
    cases fuel with
    | zero => omega
    | succ f =>
      have hne : ¬ i = h := by omega
      have hrec := ih f (by omega)
      simp only [rcu_defer_barrier_queue_loop, if_neg hne, hbit, Bool.false_eq_true, if_false,
        if_neg hmark, hrec]

lemma EncodedRange.congr {qb qb' : Nat → Nat} {i h lfo lfo' : Nat} {ps : List (Nat × Nat)}
    (he : EncodedRange qb i h lfo lfo' ps)
    (hag : ∀ j, i ≤ j → j < h → qb' (j &&& DEFER_QUEUE_MASK) = qb (j &&& DEFER_QUEUE_MASK)) :
    EncodedRange qb' i h lfo lfo' ps := by
  induction he with
  | nil j lfoj => exact .nil j lfoj
  | @tag i h lfo lfo' ps hle hbit hrest ih =>
    have h0 := hag i (Nat.le_refl _) (by omega)
    have h1 := hag (i + 1) (by omega) (by omega)
    have hrest' := ih (fun j hj1 hj2 => hag j (by omega) hj2)
    rw [← h0] at hbit hrest'
    rw [← h0, ← h1]
    exact .tag hle hbit hrest'
  | @mark i h lfo lfo' ps hle hslot hrest ih =>
    have h0 := hag i (Nat.le_refl _) (by omega)
    have h1 := hag (i + 1) (by omega) (by omega)
    have h2 := hag (i + 2) (by omega) (by omega)
    have hrest' := ih (fun j hj1 hj2 => hag j (by omega) hj2)
    rw [← h0] at hslot
    rw [← h1] at hrest'
    rw [← h1, ← h2]
    exact .mark hle hslot hrest'
  | @arg i h lfo lfo' ps hle hbit hmark hrest ih =>
    have h0 := hag i (Nat.le_refl _) (by omega)
    have hrest' := ih (fun j hj1 hj2 => hag j (by omega) hj2)
    rw [← h0] at hbit hmark
    rw [← h0]
    exact .arg hle hbit hmark hrest'

lemma EncodedRange.append {qb : Nat → Nat} {i m hh lfo la lfo' : Nat}
    {ps ps' : List (Nat × Nat)}
    (h1 : EncodedRange qb i m lfo la ps) (h2 : EncodedRange qb m hh la lfo' ps') :
    EncodedRange qb i hh lfo lfo' (ps ++ ps') := by
  induction h1 with
  | nil j lfoj => simpa using h2
  | @tag i m lfo lfoE ps hle hbit hrest ih =>
    exact .tag (by have := (ih h2).le; omega) hbit (ih h2)
  | @mark i m lfo lfoE ps hle hslot hrest ih =>
    exact .mark (by have := (ih h2).le; omega) hslot (ih h2)
  | @arg i m lfo lfoE ps hle hbit hmark hrest ih =>
    exact .arg (by have := (ih h2).le; omega) hbit hmark (ih h2)

lemma EncodedRange.update_high {qb : Nat → Nat} {i h lfo lfo' : Nat} {ps : List (Nat × Nat)}
    (he : EncodedRange qb i h lfo lfo' ps) (w v : Nat)
    (hw : h ≤ w) (hspan : w - i < DEFER_QUEUE_SIZE) :
    EncodedRange (Function.update qb (w &&& DEFER_QUEUE_MASK) v) i h lfo lfo' ps := by
  refine he.congr (fun j hj1 hj2 => ?_)
  have hne : w &&& DEFER_QUEUE_MASK ≠ j &&& DEFER_QUEUE_MASK :=
    mask_idx_ne (a := j) (b := w) (by omega) (by omega)
  exact Function.update_noteq hne.symm v qb

/-- Draining a queue whose pending range is well encoded succeeds and invokes
exactly the pending pairs, leaving `tail = head` and the decoder state at the
encoder's `last_fct_in`-side endpoint. -/
lemma rcu_defer_barrier_queue_encoded {dq : DeferQueue} {lfo' : Nat} {ps : List (Nat × Nat)}
    (he : EncodedRange dq.q dq.tail dq.head dq.last_fct_out lfo' ps) :
    rcu_defer_barrier_queue dq dq.head =
      some ({ dq with tail := dq.head, last_fct_out := lfo' }, ps) := by
  unfold rcu_defer_barrier_queue
  rw [he.decode (dq.head - dq.tail) (Nat.le_refl _)]

lemma barrier_thread_empty {dq : DeferQueue} (h : dq.head - dq.tail = 0) :
    _rcu_defer_barrier_thread dq = some (dq, [], false) := by
  unfold _rcu_defer_barrier_thread
  simp [h]

lemma barrier_thread_encoded {dq : DeferQueue} {lfo' : Nat} {ps : List (Nat × Nat)}
    (he : EncodedRange dq.q dq.tail dq.head dq.last_fct_out lfo' ps)
    (hne : dq.head - dq.tail ≠ 0) :
    _rcu_defer_barrier_thread dq =
      some ({ dq with tail := dq.head, last_fct_out := lfo' }, ps, true) := by
  unfold _rcu_defer_barrier_thread
  simp only [if_neg hne, rcu_defer_barrier_queue_encoded he]

/-- The per-queue invariant: the pending range `[tail, head)` is a well-formed
encoding of `ps` whose decode resynchronizes `last_fct_out` to `last_fct_in`,
and the unsigned fill level never exceeds the queue size. -/
def QueueInv (dq : DeferQueue) (ps : List (Nat × Nat)) : Prop :=
  EncodedRange dq.q dq.tail dq.head dq.last_fct_out dq.last_fct_in ps ∧
  dq.head - dq.tail ≤ DEFER_QUEUE_SIZE


/-- Effect of the slot-writing tail of `_rcu_defer_queue` when at least three
free cells remain: the pending encoding is extended by exactly `(fct, p)`,
the fill level grows by at most 3, and `tail`/`last_fct_out` are untouched. -/
lemma defer_enqueue_slots_spec {dq : DeferQueue} {ps : List (Nat × Nat)} (fct p : Nat)
    (he : EncodedRange dq.q dq.tail dq.head dq.last_fct_out dq.last_fct_in ps)
    (hroom : dq.head - dq.tail + 3 ≤ DEFER_QUEUE_SIZE)
    (hf : fct < wordSize) :
    ∃ qb' hd, defer_enqueue_slots dq fct p =
        { dq with last_fct_in := fct, head := hd, q := qb' } ∧
      dq.head + 1 ≤ hd ∧ hd ≤ dq.head + 3 ∧
      EncodedRange qb' dq.tail hd dq.last_fct_out fct (ps ++ [(fct, p)]) := by
  have htl : dq.tail ≤ dq.head := he.le
  have hN : DEFER_QUEUE_SIZE = 4096 := queue_size_eq
  have hne01 : (dq.head + 1) &&& DEFER_QUEUE_MASK ≠ dq.head &&& DEFER_QUEUE_MASK :=
    mask_idx_ne (a := dq.head) (b := dq.head + 1) (by omega) (by omega)
  have hne02 : (dq.head + 2) &&& DEFER_QUEUE_MASK ≠ dq.head &&& DEFER_QUEUE_MASK :=
    mask_idx_ne (a := dq.head) (b := dq.head + 2) (by omega) (by omega)
  have hne12 : (dq.head + 2) &&& DEFER_QUEUE_MASK ≠ (dq.head + 1) &&& DEFER_QUEUE_MASK :=
    mask_idx_ne (a := dq.head + 1) (b := dq.head + 2) (by omega) (by omega)
  by_cases hin : dq.last_fct_in ≠ fct
  · by_cases hesc : DQ_IS_FCT_BIT fct = true ∨ fct = DQ_FCT_MARK
    · -- new function, unaligned or sentinel: MARK, fct, then the argument
      refine ⟨Function.update (Function.update (Function.update dq.q
          (dq.head &&& DEFER_QUEUE_MASK) DQ_FCT_MARK)
          ((dq.head + 1) &&& DEFER_QUEUE_MASK) fct)
          ((dq.head + 2) &&& DEFER_QUEUE_MASK) p,
        dq.head + 2 + 1, ?_, by omega, by omega, ?_⟩
      · simp only [defer_enqueue_slots, writeSlot, if_pos hin, if_pos hesc]
      · have hold : EncodedRange
            (Function.update (Function.update (Function.update dq.q
              (dq.head &&& DEFER_QUEUE_MASK) DQ_FCT_MARK)
              ((dq.head + 1) &&& DEFER_QUEUE_MASK) fct)
              ((dq.head + 2) &&& DEFER_QUEUE_MASK) p)
            dq.tail dq.head dq.last_fct_out dq.last_fct_in ps :=
          ((he.update_high dq.head DQ_FCT_MARK (Nat.le_refl _) (by omega)).update_high
            (dq.head + 1) fct (by omega) (by omega)).update_high
            (dq.head + 2) p (by omega) (by omega)
        refine hold.append ?_
        have r0 : (Function.update (Function.update (Function.update dq.q
              (dq.head &&& DEFER_QUEUE_MASK) DQ_FCT_MARK)
              ((dq.head + 1) &&& DEFER_QUEUE_MASK) fct)
              ((dq.head + 2) &&& DEFER_QUEUE_MASK) p) (dq.head &&& DEFER_QUEUE_MASK)
            = DQ_FCT_MARK := by
          rw [Function.update_noteq hne02.symm, Function.update_noteq hne01.symm,
            Function.update_same]
        have r1 : (Function.update (Function.update (Function.update dq.q
              (dq.head &&& DEFER_QUEUE_MASK) DQ_FCT_MARK)
              ((dq.head + 1) &&& DEFER_QUEUE_MASK) fct)
              ((dq.head + 2) &&& DEFER_QUEUE_MASK) p) ((dq.head + 1) &&& DEFER_QUEUE_MASK)
            = fct := by
          rw [Function.update_noteq hne12.symm, Function.update_same]
        have r2 : (Function.update (Function.update (Function.update dq.q
              (dq.head &&& DEFER_QUEUE_MASK) DQ_FCT_MARK)
              ((dq.head + 1) &&& DEFER_QUEUE_MASK) fct)
              ((dq.head + 2) &&& DEFER_QUEUE_MASK) p) ((dq.head + 2) &&& DEFER_QUEUE_MASK)
            = p := Function.update_same _ _ _
        have hseg := @EncodedRange.mark (Function.update (Function.update
            (Function.update dq.q (dq.head &&& DEFER_QUEUE_MASK) DQ_FCT_MARK)
            ((dq.head + 1) &&& DEFER_QUEUE_MASK) fct)
            ((dq.head + 2) &&& DEFER_QUEUE_MASK) p)
            dq.head (dq.head + 2 + 1) dq.last_fct_in _ _
            (by omega) r0 (by rw [r1]; exact .nil _ _)
        rw [r1, r2] at hseg
        exact hseg
    · -- new aligned function: tagged slot, then the argument
      have hbitf : DQ_IS_FCT_BIT fct = false := by
        cases hbv : DQ_IS_FCT_BIT fct with
        | false => rfl
        | true => exact absurd (Or.inl hbv) hesc
      have heven : fct % 2 = 0 := (isFctBit_false_iff fct).mp hbitf
      refine ⟨Function.update (Function.update dq.q
          (dq.head &&& DEFER_QUEUE_MASK) (DQ_SET_FCT_BIT fct))
          ((dq.head + 1) &&& DEFER_QUEUE_MASK) p,
        dq.head + 1 + 1, ?_, by omega, by omega, ?_⟩
      · simp only [defer_enqueue_slots, writeSlot, if_pos hin, if_neg hesc]
      · have hold : EncodedRange
            (Function.update (Function.update dq.q
              (dq.head &&& DEFER_QUEUE_MASK) (DQ_SET_FCT_BIT fct))
              ((dq.head + 1) &&& DEFER_QUEUE_MASK) p)
            dq.tail dq.head dq.last_fct_out dq.last_fct_in ps :=
          (he.update_high dq.head (DQ_SET_FCT_BIT fct) (Nat.le_refl _) (by omega)).update_high
            (dq.head + 1) p (by omega) (by omega)
        refine hold.append ?_
        have r0 : (Function.update (Function.update dq.q
              (dq.head &&& DEFER_QUEUE_MASK) (DQ_SET_FCT_BIT fct))
              ((dq.head + 1) &&& DEFER_QUEUE_MASK) p) (dq.head &&& DEFER_QUEUE_MASK)
            = DQ_SET_FCT_BIT fct := by
          rw [Function.update_noteq hne01.symm, Function.update_same]
        have r1 : (Function.update (Function.update dq.q
              (dq.head &&& DEFER_QUEUE_MASK) (DQ_SET_FCT_BIT fct))
              ((dq.head + 1) &&& DEFER_QUEUE_MASK) p) ((dq.head + 1) &&& DEFER_QUEUE_MASK)
            = p := Function.update_same _ _ _
        have hclear : DQ_CLEAR_FCT_BIT (DQ_SET_FCT_BIT fct) = fct :=
          clearFctBit_setFctBit fct heven hf
        have hseg := @EncodedRange.tag (Function.update (Function.update dq.q
              (dq.head &&& DEFER_QUEUE_MASK) (DQ_SET_FCT_BIT fct))
              ((dq.head + 1) &&& DEFER_QUEUE_MASK) p)
            dq.head (dq.head + 1 + 1) dq.last_fct_in _ _
            (by omega) (by rw [r0]; exact isFctBit_setFctBit fct heven)
            (by rw [r0, hclear]; exact .nil _ _)
        rw [r0, r1, hclear] at hseg
        exact hseg
  · -- function pointer elided (same as last_fct_in)
    have hfeq : dq.last_fct_in = fct := by
      by_contra hc
      exact hin hc
    subst hfeq
    have hin' : ¬ (dq.last_fct_in ≠ dq.last_fct_in) := fun hc => hc rfl
    by_cases hesc : DQ_IS_FCT_BIT p = true ∨ p = DQ_FCT_MARK
    · -- unaligned or sentinel argument: escape with MARK, fct, then p
      refine ⟨Function.update (Function.update (Function.update dq.q
          (dq.head &&& DEFER_QUEUE_MASK) DQ_FCT_MARK)
          ((dq.head + 1) &&& DEFER_QUEUE_MASK) dq.last_fct_in)
          ((dq.head + 2) &&& DEFER_QUEUE_MASK) p,
        dq.head + 2 + 1, ?_, by omega, by omega, ?_⟩
      · simp only [defer_enqueue_slots, writeSlot, if_neg hin', if_pos hesc]
      · have hold : EncodedRange
            (Function.update (Function.update (Function.update dq.q
              (dq.head &&& DEFER_QUEUE_MASK) DQ_FCT_MARK)
              ((dq.head + 1) &&& DEFER_QUEUE_MASK) dq.last_fct_in)
              ((dq.head + 2) &&& DEFER_QUEUE_MASK) p)
            dq.tail dq.head dq.last_fct_out dq.last_fct_in ps :=
          ((he.update_high dq.head DQ_FCT_MARK (Nat.le_refl _) (by omega)).update_high
            (dq.head + 1) dq.last_fct_in (by omega) (by omega)).update_high
            (dq.head + 2) p (by omega) (by omega)
        refine hold.append ?_
        have r0 : (Function.update (Function.update (Function.update dq.q
              (dq.head &&& DEFER_QUEUE_MASK) DQ_FCT_MARK)
              ((dq.head + 1) &&& DEFER_QUEUE_MASK) dq.last_fct_in)
              ((dq.head + 2) &&& DEFER_QUEUE_MASK) p) (dq.head &&& DEFER_QUEUE_MASK)
            = DQ_FCT_MARK := by
          rw [Function.update_noteq hne02.symm, Function.update_noteq hne01.symm,
            Function.update_same]
        have r1 : (Function.update (Function.update (Function.update dq.q
              (dq.head &&& DEFER_QUEUE_MASK) DQ_FCT_MARK)
              ((dq.head + 1) &&& DEFER_QUEUE_MASK) dq.last_fct_in)
              ((dq.head + 2) &&& DEFER_QUEUE_MASK) p) ((dq.head + 1) &&& DEFER_QUEUE_MASK)
            = dq.last_fct_in := by
          rw [Function.update_noteq hne12.symm, Function.update_same]
        have r2 : (Function.update (Function.update (Function.update dq.q
              (dq.head &&& DEFER_QUEUE_MASK) DQ_FCT_MARK)
              ((dq.head + 1) &&& DEFER_QUEUE_MASK) dq.last_fct_in)
              ((dq.head + 2) &&& DEFER_QUEUE_MASK) p) ((dq.head + 2) &&& DEFER_QUEUE_MASK)
            = p := Function.update_same _ _ _
        have hseg := @EncodedRange.mark (Function.update (Function.update
            (Function.update dq.q (dq.head &&& DEFER_QUEUE_MASK) DQ_FCT_MARK)
            ((dq.head + 1) &&& DEFER_QUEUE_MASK) dq.last_fct_in)
            ((dq.head + 2) &&& DEFER_QUEUE_MASK) p)
            dq.head (dq.head + 2 + 1) dq.last_fct_in _ _
            (by omega) r0 (by rw [r1]; exact .nil _ _)
        rw [r1, r2] at hseg
        exact hseg
    · -- plain argument slot, function pointer elided
      have hpbit : DQ_IS_FCT_BIT p = false := by
        cases hbv : DQ_IS_FCT_BIT p with
        | false => rfl
        | true => exact absurd (Or.inl hbv) hesc
      have hpmark : p ≠ DQ_FCT_MARK := fun hc => hesc (Or.inr hc)
      refine ⟨Function.update dq.q (dq.head &&& DEFER_QUEUE_MASK) p,
        dq.head + 1, ?_, by omega, by omega, ?_⟩
      · simp only [defer_enqueue_slots, writeSlot, if_neg hin', if_neg hesc]
      · have hold : EncodedRange
            (Function.update dq.q (dq.head &&& DEFER_QUEUE_MASK) p)
            dq.tail dq.head dq.last_fct_out dq.last_fct_in ps :=
          he.update_high dq.head p (Nat.le_refl _) (by omega)
        refine hold.append ?_
        have r0 : (Function.update dq.q (dq.head &&& DEFER_QUEUE_MASK) p)
            (dq.head &&& DEFER_QUEUE_MASK) = p := Function.update_same _ _ _
        have hseg := @EncodedRange.arg (Function.update dq.q
              (dq.head &&& DEFER_QUEUE_MASK) p)
            dq.head (dq.head + 1) dq.last_fct_in dq.last_fct_in _
            (Nat.le_refl _) (by rw [r0]; exact hpbit) (by rw [r0]; exact hpmark)
            (.nil _ _)
        rw [r0] at hseg
        exact hseg

/-- One `_rcu_defer_queue` call from an invariant state: the call succeeds
(no assertion fires), the backpressure self-drain fires exactly when
`head - tail ≥ DEFER_QUEUE_SIZE - 2` at entry (and then invokes exactly the
pending pairs), and afterwards the invariant holds with the pending pairs
extended by `(fct, p)` minus whatever was drained. -/
lemma rcu_defer_queue_step {dq : DeferQueue} {ps : List (Nat × Nat)} (fct p : Nat)
    (hinv : QueueInv dq ps) (hf : fct < wordSize) :
    ∃ dq' ps', _rcu_defer_queue dq fct p =
        some (dq', if DEFER_QUEUE_SIZE - 2 ≤ dq.head - dq.tail then ps else [],
          decide (DEFER_QUEUE_SIZE - 2 ≤ dq.head - dq.tail)) ∧
      QueueInv dq' ps' ∧
      (if DEFER_QUEUE_SIZE - 2 ≤ dq.head - dq.tail then ps else []) ++ ps' = ps ++ [(fct, p)] ∧
      dq'.last_fct_in = fct ∧
      dq.head + 1 ≤ dq'.head ∧ dq'.head ≤ dq.head + 3 := by
  obtain ⟨he, hsz⟩ := hinv
  have htl := he.le
  have hN := queue_size_eq
  by_cases hcond : DEFER_QUEUE_SIZE - 2 ≤ dq.head - dq.tail
  · -- backpressure: self-drain first, then encode into the emptied queue
    have hne0 : dq.head - dq.tail ≠ 0 := by omega
    have hbt := barrier_thread_encoded he hne0
    obtain ⟨qb', hd, heq, hlo, hhi, her⟩ :=
      @defer_enqueue_slots_spec { dq with tail := dq.head, last_fct_out := dq.last_fct_in }
        [] fct p (EncodedRange.nil dq.head dq.last_fct_in)
        (by show dq.head - dq.head + 3 ≤ DEFER_QUEUE_SIZE; rw [hN]; omega) hf
    refine ⟨{ dq with tail := dq.head, last_fct_out := dq.last_fct_in, last_fct_in := fct, head := hd, q := qb' }, [(fct, p)], ?_, ?_, ?_, rfl, ?_, ?_⟩
    · rw [if_pos hcond, decide_eq_true hcond]
      simp only [_rcu_defer_queue, hbt, if_pos hcond, if_pos hsz]
      rw [if_pos (show dq.head - dq.head = 0 by omega)]
      rw [heq]
    · have hhi' : hd ≤ dq.head + 3 := by simpa using hhi
      refine ⟨?_, ?_⟩
      · simpa using her
      · show hd - dq.head ≤ DEFER_QUEUE_SIZE
        rw [hN]
        omega
    · rw [if_pos hcond]
    · show dq.head + 1 ≤ hd
      simpa using hlo
    · show hd ≤ dq.head + 3
      simpa using hhi
  · -- normal path: just encode
    obtain ⟨qb', hd, heq, hlo, hhi, her⟩ :=
      defer_enqueue_slots_spec fct p he (by rw [hN]; rw [hN] at hcond; omega) hf
    refine ⟨{ dq with last_fct_in := fct, head := hd, q := qb' },
      ps ++ [(fct, p)], ?_, ?_, ?_, rfl, ?_, ?_⟩
    · rw [if_neg hcond, decide_eq_false hcond]
      simp only [_rcu_defer_queue, if_neg hcond]
      rw [heq]
    · refine ⟨her, ?_⟩
      · show hd - dq.tail ≤ DEFER_QUEUE_SIZE
        rw [hN]
        rw [hN] at hcond
        omega
    · rw [if_neg hcond]
      simp
    · exact hlo
    · exact hhi

/-- Enqueueing a whole list from an invariant state: all calls succeed and
the pairs drained under backpressure plus the pairs still pending equal the
previously pending pairs followed by the whole submitted list, in order. -/
lemma enqueueAll_spec {dq : DeferQueue} {ps : List (Nat × Nat)} (fs : List (Nat × Nat))
    (hinv : QueueInv dq ps) (hb : ∀ fp ∈ fs, fp.1 < wordSize) :
    ∃ dq' bp ps', enqueueAll dq fs = some (dq', bp) ∧ QueueInv dq' ps' ∧
      bp ++ ps' = ps ++ fs := by
  induction fs generalizing dq ps with
  | nil => exact ⟨dq, [], ps, rfl, hinv, by simp⟩
  | cons fp fs ih =>
    obtain ⟨f, p⟩ := fp
    obtain ⟨dq1, ps1, heq1, hinv1, hsum1, -, -, -⟩ :=
      rcu_defer_queue_step f p hinv (hb (f, p) (by simp))
    obtain ⟨dq2, bp2, ps2, heq2, hinv2, hsum2⟩ :=
      ih hinv1 (fun fp hfp => hb fp (by simp [hfp]))
    refine ⟨dq2, (if DEFER_QUEUE_SIZE - 2 ≤ dq.head - dq.tail then ps else []) ++ bp2,
      ps2, ?_, hinv2, ?_⟩
    · simp only [enqueueAll, heq1, heq2]
    · rw [List.append_assoc, hsum2, ← List.append_assoc, hsum1]
      simp

/-- A run of identical bare argument slots is a well-formed encoded region
(used to build concrete near-full queue states). -/
lemma encodedRange_const_args (c : Nat) (hc : DQ_IS_FCT_BIT c = false)
    (hm : c ≠ DQ_FCT_MARK) (lfo : Nat) :
    ∀ k i : Nat, EncodedRange (fun _ => c) i (i + k) lfo lfo
      (List.replicate k (lfo, c)) := by
  intro k
  induction k with
  | zero => exact fun i => .nil i lfo
  | succ n ih =>
    intro i
    have hrest : EncodedRange (fun _ => c) (i + 1) (i + (n + 1)) lfo lfo
        (List.replicate n (lfo, c)) := by
      have hcast : (i + 1) + n = i + (n + 1) := by omega
      exact hcast ▸ ih (i + 1)
    exact EncodedRange.arg (by omega) hc hm hrest

/-! ### Registry, worker lifecycle and the global barrier -/

/-- `INIT_NUM_THREADS` (urcu-defer.c:62): initial registry capacity. -/
def INIT_NUM_THREADS : Nat := 4

/-- `struct deferer_registry` (urcu-defer.c:64-68): thread id, pointer to the
thread's queue (held by value, with `qAllocated` recording whether the C
queue buffer pointer is non-NULL), and the drain-cycle scratch `last_head`. -/
structure DefererEntry where
  tid : Nat
  queue : DeferQueue
  qAllocated : Bool
  last_head : Nat

/-- The process-global state: `registry` (NULL or the current array contents,
entries `0..num_deferers`), `alloc_deferers` (capacity), and whether the
reclamation worker thread is running. -/
structure GlobalState where
  registry : Option (List DefererEntry)
  alloc_deferers : Nat
  workerRunning : Bool

/-- `num_deferers`: the number of valid registry entries. -/
def numDeferers (st : GlobalState) : Nat :=
  match st.registry with
  | none => 0
  | some es => es.length

/-- The snapshot pass of `rcu_defer_barrier` (urcu-defer.c:230-233):
`index->last_head = LOAD_SHARED(index->defer_queue->head)` for each entry. -/
def snapshotEntries (es : List DefererEntry) : List DefererEntry :=
  es.map fun e => { e with last_head := e.queue.head }

/-- The pending-item count accumulated during the snapshot pass:
`num_items += index->last_head - index->defer_queue->tail`. -/
def totalPending (es : List DefererEntry) : Nat :=
  (es.map fun e => e.last_head - e.queue.tail).sum

/-- The drain pass of `rcu_defer_barrier` (urcu-defer.c:242-244): drain every
registered queue up to its snapshot `last_head`, in registry order. -/
def drainEntries : List DefererEntry → Option (List DefererEntry × List (Nat × Nat))
  | [] => some ([], [])
  | e :: es =>
    match rcu_defer_barrier_queue e.queue e.last_head with
    | none => none
    | some (q', cs) =>
      match drainEntries es with
      | none => none
      | some (es', css) => some ({ e with queue := q' } :: es', cs ++ css)

/-- `rcu_defer_barrier()` (urcu-defer.c:221-247): return immediately when the
registry was never allocated; snapshot all heads and total the pending count;
skip the grace period when it is zero; otherwise `synchronize_rcu()` once and
drain every queue to its snapshot.  The `Bool` records whether
`synchronize_rcu()` was called. -/
def rcu_defer_barrier (st : GlobalState) : Option (GlobalState × List (Nat × Nat) × Bool) :=
  match st.registry with
  | none => some (st, [], false)
  | some es =>
    let es1 := snapshotEntries es
    let num_items := totalPending es1
    if num_items = 0 then some ({ st with registry := some es1 }, [], false)
    else
      match drainEntries es1 with
      | none => none
      | some (es', cs) => some ({ st with registry := some es' }, cs, true)

/-- `rcu_add_deferer(id)` (urcu-defer.c:340-364).  The caller's thread-local
queue and the success of the queue-buffer malloc are passed in (`dq`,
`qAlloc`); `regAllocOk`/`growAllocOk` are the outcomes of the registry array
mallocs.  A NULL registry (failed malloc) is dereferenced by the append and
a failed growth malloc is the target of the `memcpy`: both are modelled as
`none` (crash). -/
def rcu_add_deferer (st : GlobalState) (id : Nat) (dq : DeferQueue) (qAlloc : Bool)
    (regAllocOk growAllocOk : Bool) : Option GlobalState :=
  match st.registry with
  | none =>
    if regAllocOk then
      some { st with registry := some [⟨id, dq, qAlloc, 0⟩],
                     alloc_deferers := INIT_NUM_THREADS }
    else none
  | some es =>
    if st.alloc_deferers < es.length + 1 then
      if growAllocOk then
        some { st with registry := some (es ++ [⟨id, dq, qAlloc, 0⟩]),
                       alloc_deferers := st.alloc_deferers <<< 1 }
      else none
    else
      some { st with registry := some (es ++ [⟨id, dq, qAlloc, 0⟩]) }

/-- `rcu_remove_deferer(id)` (urcu-defer.c:370-388): locate the entry by
thread-handle equality, overwrite it with the last entry, clear and drop the
last slot, decrement the count; `assert(0)` (modelled `none`) if absent. -/
def rcu_remove_deferer (es : List DefererEntry) (id : Nat) :
    Option (List DefererEntry) :=
  match es.findIdx? (fun e => e.tid == id) with
  | none => none
  | some i =>
    match es.getLast? with
    | none => none
    | some last => some ((es.set i last).dropLast)

/-- `rcu_defer_register_thread()` (urcu-defer.c:410-424): allocate the
thread's queue buffer (`qAlloc` is the malloc outcome — note the source does
not check it), add the registry entry, and start the worker when the count
reached one.  The returned `Bool` records whether the worker was started. -/
def rcu_defer_register_thread (st : GlobalState) (id : Nat) (dq : DeferQueue)
    (qAlloc regAllocOk growAllocOk : Bool) : Option (GlobalState × Bool) :=
  match rcu_add_deferer st id dq qAlloc regAllocOk growAllocOk with
  | none => none
  | some st1 =>
    if numDeferers st1 = 1 then some ({ st1 with workerRunning := true }, true)
    else some (st1, false)

/-- Observable milestones of `rcu_defer_unregister_thread`, in the order the
code performs them. -/
inductive UnregEvent where
  | removed
  | synced
  | drained
  | freed
  | stopped
deriving DecidableEq, BEq

/-- `rcu_defer_unregister_thread()` (urcu-defer.c:426-442): remove the
caller's registry entry, drain the caller's thread-local queue under a grace
period (`_rcu_defer_barrier_thread`), free its buffer, and stop (cancel,
wake, join) the worker when the count reached zero.  Returns the new global
state, the caller's queue after the drain, the invoked pairs, and the event
trace in code order. -/
def rcu_defer_unregister_thread (st : GlobalState) (id : Nat)
    (callerQueue : DeferQueue) :
    Option (GlobalState × DeferQueue × List (Nat × Nat) × List UnregEvent) :=
  match st.registry with
  | none => none
  | some es =>
    match rcu_remove_deferer es id with
    | none => none
    | some es' =>
      match _rcu_defer_barrier_thread callerQueue with
      | none => none
      | some (q', calls, s) =>
        let events := UnregEvent.removed ::
          ((if s then [UnregEvent.synced, UnregEvent.drained] else []) ++ [UnregEvent.freed])
        if es'.length = 0 then
          some ({ st with registry := some es', workerRunning := false }, q', calls,
            events ++ [UnregEvent.stopped])
        else
          some ({ st with registry := some es' }, q', calls, events)

/-- Pointwise queue invariant over the registry: each registered queue's
pending range is a well-formed encoding of its pending pair list. -/
def EntriesInv : List DefererEntry → List (List (Nat × Nat)) → Prop :=
  List.Forall₂ (fun e ps => QueueInv e.queue ps)

lemma drainEntries_snapshot {es : List DefererEntry} {pss : List (List (Nat × Nat))}
    (hinv : EntriesInv es pss) :
    ∃ es', drainEntries (snapshotEntries es) = some (es', pss.flatten) ∧
      es'.length = es.length ∧ ∀ e ∈ es', e.queue.tail = e.queue.head := by
  induction hinv with
  | nil => exact ⟨[], rfl, rfl, by simp⟩
  | @cons e ps es pss hqe hrest ih =>
    obtain ⟨es', heq, hlen, hdrained⟩ := ih
    have hdq := rcu_defer_barrier_queue_encoded hqe.1
    refine ⟨({ e with last_head := e.queue.head, queue := { e.queue with tail := e.queue.head, last_fct_out := e.queue.last_fct_in } } : DefererEntry) :: es', ?_, ?_, ?_⟩
    · simp only [snapshotEntries] at heq
      simp only [snapshotEntries, List.map_cons, drainEntries, hdq, List.flatten_cons]
      rw [heq]
    · simpa using hlen
    · intro x hx
      rcases List.mem_cons.mp hx with hx | hx
      · subst hx
        rfl
      · exact hdrained x hx

lemma totalPending_zero_empty {es : List DefererEntry} {pss : List (List (Nat × Nat))}
    (hinv : EntriesInv es pss) (h0 : totalPending (snapshotEntries es) = 0) :
    pss.flatten = [] ∧ ∀ e ∈ es, e.queue.tail = e.queue.head := by
  induction hinv with
  | nil => exact ⟨rfl, by simp⟩
  | @cons e ps es pss hqe hrest ih =>
    simp only [snapshotEntries, totalPending, List.map_cons, List.sum_cons,
      List.map_map] at h0
    have htl : e.queue.tail ≤ e.queue.head := hqe.1.le
    have hte : e.queue.tail = e.queue.head := by omega
    have h0' : totalPending (snapshotEntries es) = 0 := by
      simp only [snapshotEntries, totalPending, List.map_map]
      omega
    obtain ⟨hjoin, hall⟩ := ih h0'
    have hps : ps = [] := by
      have he := hqe.1
      rw [← hte] at he
      exact he.self_inv.2
    refine ⟨by simp [hps, hjoin], ?_⟩
    intro x hx
    rcases List.mem_cons.mp hx with hx | hx
    · subst hx
      exact hte
    · exact hall x hx

/-! ### Claim theorems -/

/-- C1: Encode/decode round-trip.  Starting from a freshly synchronized
queue, enqueueing any finite sequence of `(fct, arg)` pairs through
`_rcu_defer_queue` — including function pointers with the low bit set or
equal to the sentinel `DQ_FCT_MARK`, and likewise for arguments — and then
draining with `rcu_defer_barrier_queue` invokes exactly those pairs with
identical values, once each, in submission order (pairs drained by a
backpressure self-drain during an enqueue, which also goes through
`rcu_defer_barrier_queue`, come first, the final drain supplies the rest). -/
theorem claim_C1_roundtrip (fs : List (Nat × Nat)) (dq : DeferQueue)
    (hempty : dq.head = dq.tail) (hsync : dq.last_fct_in = dq.last_fct_out)
    (hb : ∀ fp ∈ fs, fp.1 < wordSize) :
    ∃ dq1 bp dq2 final, enqueueAll dq fs = some (dq1, bp) ∧
      rcu_defer_barrier_queue dq1 dq1.head = some (dq2, final) ∧
      bp ++ final = fs ∧ dq2.tail = dq2.head := by
  have he : EncodedRange dq.q dq.tail dq.head dq.last_fct_out dq.last_fct_in [] := by
    rw [hempty, hsync]
    exact .nil _ _
  have hinv : QueueInv dq [] := ⟨he, by omega⟩
  obtain ⟨dq1, bp, ps', heq, hinv1, hsum⟩ := enqueueAll_spec fs hinv hb
  have hdrain := rcu_defer_barrier_queue_encoded hinv1.1
  exact ⟨dq1, bp, _, ps', heq, hdrain, by simpa using hsum, rfl⟩

/-- Witness: C1 at a concrete six-pair sequence exercising the tagged form,
the sentinel-function escape, the sentinel and odd-argument escapes, and
function-pointer elision. -/
theorem claim_C1_roundtrip_witness :
    ∃ dq1 bp dq2 final,
      enqueueAll ⟨0, 0, 0, 0, fun _ => 0⟩
          [(64, 3), (64, 4), (7, 8), (DQ_FCT_MARK, DQ_FCT_MARK), (64, DQ_FCT_MARK), (64, 9)] =
        some (dq1, bp) ∧
      rcu_defer_barrier_queue dq1 dq1.head = some (dq2, final) ∧
      bp ++ final =
        [(64, 3), (64, 4), (7, 8), (DQ_FCT_MARK, DQ_FCT_MARK), (64, DQ_FCT_MARK), (64, 9)] ∧
      dq2.tail = dq2.head :=
  claim_C1_roundtrip
    [(64, 3), (64, 4), (7, 8), (DQ_FCT_MARK, DQ_FCT_MARK), (64, DQ_FCT_MARK), (64, 9)]
    ⟨0, 0, 0, 0, fun _ => 0⟩ rfl rfl (by decide)

/-- C3: Queue fill invariant.  From any invariant state, the unsigned fill
level satisfies `head - tail ≤ DEFER_QUEUE_SIZE` before the call,
`_rcu_defer_queue` (which writes up to 3 slots) succeeds and re-establishes
the invariant with the bound still holding afterwards, and the backpressure
drain (witnessed by the `synchronize_rcu` flag) is triggered exactly when
`head - tail ≥ DEFER_QUEUE_SIZE - 2` at entry. -/
theorem claim_C3_fill_invariant {dq : DeferQueue} {ps : List (Nat × Nat)} (fct p : Nat)
    (hinv : QueueInv dq ps) (hf : fct < wordSize) :
    dq.head - dq.tail ≤ DEFER_QUEUE_SIZE ∧
    ∃ dq' bp s ps', _rcu_defer_queue dq fct p = some (dq', bp, s) ∧
      dq'.head - dq'.tail ≤ DEFER_QUEUE_SIZE ∧ QueueInv dq' ps' ∧
      (s = true ↔ DEFER_QUEUE_SIZE - 2 ≤ dq.head - dq.tail) := by
  obtain ⟨dq', ps', heq, hinv', hsum, hlfi, h1, h3⟩ := rcu_defer_queue_step fct p hinv hf
  exact ⟨hinv.2, dq', _, _, ps', heq, hinv'.2, hinv', by simp⟩

/-- Witness: C3 at an empty concrete queue. -/
theorem claim_C3_fill_invariant_witness :
    (⟨0, 0, 0, 0, fun _ => 0⟩ : DeferQueue).head -
        (⟨0, 0, 0, 0, fun _ => 0⟩ : DeferQueue).tail ≤ DEFER_QUEUE_SIZE ∧
    ∃ dq' bp s ps', _rcu_defer_queue ⟨0, 0, 0, 0, fun _ => 0⟩ 64 5 = some (dq', bp, s) ∧
      dq'.head - dq'.tail ≤ DEFER_QUEUE_SIZE ∧ QueueInv dq' ps' ∧
      (s = true ↔ DEFER_QUEUE_SIZE - 2 ≤
        (⟨0, 0, 0, 0, fun _ => 0⟩ : DeferQueue).head -
          (⟨0, 0, 0, 0, fun _ => 0⟩ : DeferQueue).tail) :=
  @claim_C3_fill_invariant ⟨0, 0, 0, 0, fun _ => 0⟩ [] 64 5
    ⟨EncodedRange.nil 0 0, by decide⟩ (by decide)

/-- C4: Backpressure assertions.  When `_rcu_defer_queue` is entered with
`head - tail ≥ DEFER_QUEUE_SIZE - 2` from an invariant state:
(a) `head - tail ≤ DEFER_QUEUE_SIZE` holds (first assert);
(b) the self-drain `_rcu_defer_barrier_thread` succeeds (after a grace
period) and leaves `head - tail = 0` (second assert, caller sole producer);
(c) the enqueue completes, returning `some` with the drained pairs and the
`synchronize_rcu` flag set.  In particular this covers entry at exactly
`head - tail = DEFER_QUEUE_SIZE - 2` (the witness). -/
theorem claim_C4_backpressure {dq : DeferQueue} {ps : List (Nat × Nat)} (fct p : Nat)
    (hinv : QueueInv dq ps) (hcond : DEFER_QUEUE_SIZE - 2 ≤ dq.head - dq.tail)
    (hf : fct < wordSize) :
    dq.head - dq.tail ≤ DEFER_QUEUE_SIZE ∧
    (∃ dqB, _rcu_defer_barrier_thread dq = some (dqB, ps, true) ∧
      dq.head - dqB.tail = 0) ∧
    (∃ dq', _rcu_defer_queue dq fct p = some (dq', ps, true)) := by
  obtain ⟨he, hsz⟩ := hinv
  have htl := he.le
  have hN := queue_size_eq
  have hne0 : dq.head - dq.tail ≠ 0 := by
    rw [hN] at hcond
    omega
  refine ⟨hsz, ⟨_, barrier_thread_encoded he hne0, by simp⟩, ?_⟩
  obtain ⟨dq', ps', heq, hinv', hsum, hlfi, h1, h3⟩ := rcu_defer_queue_step fct p ⟨he, hsz⟩ hf
  rw [if_pos hcond, decide_eq_true hcond] at heq
  exact ⟨dq', heq⟩

/-- Witness: C4 at a concrete queue whose fill level is exactly
`DEFER_QUEUE_SIZE - 2 = 4094` bare argument slots. -/
theorem claim_C4_backpressure_witness :
    (⟨4094, 0, 2, 2, fun _ => 42⟩ : DeferQueue).head -
        (⟨4094, 0, 2, 2, fun _ => 42⟩ : DeferQueue).tail ≤ DEFER_QUEUE_SIZE ∧
    (∃ dqB, _rcu_defer_barrier_thread ⟨4094, 0, 2, 2, fun _ => 42⟩ =
        some (dqB, List.replicate 4094 (2, 42), true) ∧
      (⟨4094, 0, 2, 2, fun _ => 42⟩ : DeferQueue).head - dqB.tail = 0) ∧
    (∃ dq', _rcu_defer_queue ⟨4094, 0, 2, 2, fun _ => 42⟩ 64 5 =
        some (dq', List.replicate 4094 (2, 42), true)) :=
  @claim_C4_backpressure ⟨4094, 0, 2, 2, fun _ => 42⟩
    (List.replicate 4094 (2, 42)) 64 5
    ⟨encodedRange_const_args 42 (by decide) (by decide) 2 4094 0, by decide⟩
    (by decide) (by decide)

/-- C10: Encoder/decoder state synchronization.  From any invariant state
(whose pending encoding, by the invariant, decodes ending in `last_fct_in`):
draining every slot up to the producer's current head leaves
`last_fct_out = last_fct_in`, so a later argument-only slot is paired with
the right function across drain cycles.  Moreover an argument written
immediately after a new (aligned, non-sentinel) function slot needs no
sentinel escape — exactly 2 slots are written even when the argument has its
low bit set or equals the sentinel — because the decoder unconditionally
reads the slot after a function slot as the argument, and the drain still
yields the pair `(fct, p)`. -/
theorem claim_C10_state_sync {dq : DeferQueue} {ps : List (Nat × Nat)} (fct p : Nat)
    (hinv : QueueInv dq ps)
    (hfe : DQ_IS_FCT_BIT fct = false) (hfm : fct ≠ DQ_FCT_MARK)
    (hnew : dq.last_fct_in ≠ fct) (hf : fct < wordSize)
    (hroom : dq.head - dq.tail + 3 ≤ DEFER_QUEUE_SIZE) :
    (∃ dq2, rcu_defer_barrier_queue dq dq.head = some (dq2, ps) ∧
      dq2.last_fct_out = dq.last_fct_in ∧ dq2.tail = dq2.head) ∧
    (defer_enqueue_slots dq fct p).head = dq.head + 2 ∧
    ∃ dq3, rcu_defer_barrier_queue (defer_enqueue_slots dq fct p)
        (defer_enqueue_slots dq fct p).head = some (dq3, ps ++ [(fct, p)]) := by
  obtain ⟨he, hsz⟩ := hinv
  have hesc : ¬ (DQ_IS_FCT_BIT fct = true ∨ fct = DQ_FCT_MARK) := by
    simp [hfe, hfm]
  refine ⟨⟨_, rcu_defer_barrier_queue_encoded he, rfl, rfl⟩, ?_, ?_⟩
  · simp only [defer_enqueue_slots, writeSlot, if_pos hnew, if_neg hesc]
  · obtain ⟨qb', hd, heq, hlo, hhi, her⟩ := defer_enqueue_slots_spec fct p he hroom hf
    rw [heq]
    exact ⟨_, rcu_defer_barrier_queue_encoded her⟩

/-- Witness: C10 at a concrete one-item queue, with a sentinel-valued
argument following a fresh aligned function pointer. -/
theorem claim_C10_state_sync_witness :
    (∃ dq2, rcu_defer_barrier_queue ⟨1, 0, 2, 2, fun _ => 42⟩
        (⟨1, 0, 2, 2, fun _ => 42⟩ : DeferQueue).head =
        some (dq2, List.replicate 1 (2, 42)) ∧
      dq2.last_fct_out = (⟨1, 0, 2, 2, fun _ => 42⟩ : DeferQueue).last_fct_in ∧
      dq2.tail = dq2.head) ∧
    (defer_enqueue_slots ⟨1, 0, 2, 2, fun _ => 42⟩ 64 DQ_FCT_MARK).head =
      (⟨1, 0, 2, 2, fun _ => 42⟩ : DeferQueue).head + 2 ∧
    ∃ dq3, rcu_defer_barrier_queue (defer_enqueue_slots ⟨1, 0, 2, 2, fun _ => 42⟩ 64 DQ_FCT_MARK)
        (defer_enqueue_slots ⟨1, 0, 2, 2, fun _ => 42⟩ 64 DQ_FCT_MARK).head =
        some (dq3, List.replicate 1 (2, 42) ++ [(64, DQ_FCT_MARK)]) :=
  @claim_C10_state_sync ⟨1, 0, 2, 2, fun _ => 42⟩
    (List.replicate 1 (2, 42)) 64 DQ_FCT_MARK
    ⟨encodedRange_const_args 42 (by decide) (by decide) 2 1 0, by decide⟩
    (by decide) (by decide) (by decide) (by decide) (by decide)

/-- C2: Barrier contract.  From any state whose registered queues satisfy the
per-queue invariant with pending lists `pss`, `rcu_defer_barrier` succeeds
and invokes exactly the pending pairs of every registered queue — i.e. every
item in the range `[tail, snapshot head)` of every queue at the start of the
call — and afterwards every registered queue is fully drained
(`tail = head`). -/
theorem claim_C2_barrier_drains_all {st : GlobalState} {es : List DefererEntry}
    {pss : List (List (Nat × Nat))}
    (hreg : st.registry = some es) (hinv : EntriesInv es pss) :
    ∃ st' es' s, rcu_defer_barrier st = some (st', pss.flatten, s) ∧
      st'.registry = some es' ∧ es'.length = es.length ∧
      ∀ e ∈ es', e.queue.tail = e.queue.head := by
  by_cases h0 : totalPending (snapshotEntries es) = 0
  · obtain ⟨hjoin, hall⟩ := totalPending_zero_empty hinv h0
    refine ⟨{ st with registry := some (snapshotEntries es) }, snapshotEntries es, false, ?_, rfl, ?_, ?_⟩
    · simp only [rcu_defer_barrier, hreg, if_pos h0, hjoin]
    · simp [snapshotEntries]
    · intro e he
      simp only [snapshotEntries, List.mem_map] at he
      obtain ⟨a, ha, rfl⟩ := he
      exact hall a ha
  · obtain ⟨es', heq, hlen, hdrained⟩ := drainEntries_snapshot hinv
    refine ⟨{ st with registry := some es' }, es', true, ?_, rfl, hlen, hdrained⟩
    simp only [rcu_defer_barrier, hreg, if_neg h0, heq]

/-- Witness: C2 on a registry of two threads holding one and two pending
items respectively. -/
theorem claim_C2_barrier_drains_all_witness :
    ∃ st' es' s,
      rcu_defer_barrier ⟨some [⟨1, ⟨1, 0, 2, 2, fun _ => 42⟩, true, 0⟩,
          ⟨2, ⟨2, 0, 4, 4, fun _ => 6⟩, true, 0⟩], 4, true⟩ =
        some (st', [[(2, 42)], [(4, 6), (4, 6)]].flatten, s) ∧
      st'.registry = some es' ∧
      es'.length = [⟨1, ⟨1, 0, 2, 2, fun _ => 42⟩, true, 0⟩,
          (⟨2, ⟨2, 0, 4, 4, fun _ => 6⟩, true, 0⟩ : DefererEntry)].length ∧
      ∀ e ∈ es', e.queue.tail = e.queue.head :=
  claim_C2_barrier_drains_all rfl
    (List.Forall₂.cons ⟨encodedRange_const_args 42 (by decide) (by decide) 2 1 0, by decide⟩
      (List.Forall₂.cons ⟨encodedRange_const_args 6 (by decide) (by decide) 4 2 0, by decide⟩
        List.Forall₂.nil))

/-- C7: Grace-period elision.  `rcu_defer_barrier` returns immediately —
without calling `synchronize_rcu` and with the state unchanged (in
particular the worker is not started) — when the registry has never been
allocated; it skips `synchronize_rcu` when the snapshot finds a zero total
pending count; and `_rcu_defer_barrier_thread` returns without calling
`synchronize_rcu` when the caller's own queue is empty. -/
theorem claim_C7_grace_elision :
    (∀ st : GlobalState, st.registry = none →
      rcu_defer_barrier st = some (st, [], false)) ∧
    (∀ (st : GlobalState) (es : List DefererEntry), st.registry = some es →
      totalPending (snapshotEntries es) = 0 →
      rcu_defer_barrier st = some ({ st with registry := some (snapshotEntries es) }, [], false)) ∧
    (∀ dq : DeferQueue, dq.head = dq.tail →
      _rcu_defer_barrier_thread dq = some (dq, [], false)) := by
  refine ⟨?_, ?_, ?_⟩
  · intro st hreg
    simp [rcu_defer_barrier, hreg]
  · intro st es hreg h0
    simp [rcu_defer_barrier, hreg, h0]
  · intro dq hh
    exact barrier_thread_empty (by omega)

/-- Witness: C7 with no registry, with one registered thread whose queue is
empty, and with an empty thread-local queue. -/
theorem claim_C7_grace_elision_witness :
    rcu_defer_barrier ⟨none, 0, false⟩ = some (⟨none, 0, false⟩, [], false) ∧
    rcu_defer_barrier ⟨some [⟨3, ⟨5, 5, 1, 1, fun _ => 0⟩, true, 0⟩], 4, true⟩ =
      some ({ (⟨some [⟨3, ⟨5, 5, 1, 1, fun _ => 0⟩, true, 0⟩], 4, true⟩ : GlobalState) with
        registry := some (snapshotEntries [⟨3, ⟨5, 5, 1, 1, fun _ => 0⟩, true, 0⟩]) }, [], false) ∧
    _rcu_defer_barrier_thread ⟨5, 5, 1, 1, fun _ => 0⟩ =
      some (⟨5, 5, 1, 1, fun _ => 0⟩, [], false) :=
  ⟨claim_C7_grace_elision.1 _ rfl,
   claim_C7_grace_elision.2.1 _ [⟨3, ⟨5, 5, 1, 1, fun _ => 0⟩, true, 0⟩] rfl (by decide),
   claim_C7_grace_elision.2.2 _ rfl⟩

lemma add_deferer_some_spec {st : GlobalState} {es : List DefererEntry}
    (id : Nat) (dq : DeferQueue) (qa : Bool) (hreg : st.registry = some es) :
    ∃ st', rcu_add_deferer st id dq qa true true = some st' ∧
      st'.registry = some (es ++ [⟨id, dq, qa, 0⟩]) ∧
      st'.workerRunning = st.workerRunning ∧
      st.alloc_deferers ≤ st'.alloc_deferers ∧
      st'.alloc_deferers = (if st.alloc_deferers < es.length + 1
        then st.alloc_deferers <<< 1 else st.alloc_deferers) ∧
      numDeferers st' = numDeferers st + 1 := by
  by_cases hg : st.alloc_deferers < es.length + 1
  · refine ⟨{ st with registry := some (es ++ [⟨id, dq, qa, 0⟩]), alloc_deferers := st.alloc_deferers <<< 1 }, ?_, rfl, rfl, ?_, ?_, ?_⟩
    · simp [rcu_add_deferer, hreg, hg]
    · rw [Nat.shiftLeft_eq]
      norm_num
      omega
    · simp [hg]
    · simp [numDeferers, hreg]
  · refine ⟨{ st with registry := some (es ++ [⟨id, dq, qa, 0⟩]) }, ?_, rfl, rfl, ?_, ?_, ?_⟩
    · simp [rcu_add_deferer, hreg, hg]
    · exact Nat.le_refl _
    · simp [hg]
    · simp [numDeferers, hreg]

lemma register_spec (st : GlobalState) (id : Nat) (dq : DeferQueue) (qa : Bool) :
    ∃ st' started, rcu_defer_register_thread st id dq qa true true = some (st', started) ∧
      numDeferers st' = numDeferers st + 1 ∧
      (started = true ↔ numDeferers st = 0) ∧
      st'.workerRunning = (if numDeferers st = 0 then true else st.workerRunning) := by
  cases hreg : st.registry with
  | none =>
    refine ⟨{ st with registry := some [⟨id, dq, qa, 0⟩], alloc_deferers := INIT_NUM_THREADS, workerRunning := true }, true, ?_, ?_, ?_, ?_⟩
    · simp [rcu_defer_register_thread, rcu_add_deferer, hreg, numDeferers]
    · simp [numDeferers, hreg]
    · simp [numDeferers, hreg]
    · simp [numDeferers, hreg]
  | some es =>
    obtain ⟨st1, heq, hreg1, hwr1, hle1, halloc1, hnum1⟩ := add_deferer_some_spec id dq qa hreg
    have hnum : numDeferers st = es.length := by simp [numDeferers, hreg]
    have hnum1' : numDeferers st1 = es.length + 1 := by rw [hnum1, hnum]
    by_cases h0 : es.length = 0
    · refine ⟨{ st1 with workerRunning := true }, true, ?_, ?_, ?_, ?_⟩
      · simp only [rcu_defer_register_thread, heq]
        rw [if_pos (by omega)]
      · exact hnum1
      · simp [hnum, h0]
      · simp [hnum, h0]
    · refine ⟨st1, false, ?_, hnum1, ?_, ?_⟩
      · simp only [rcu_defer_register_thread, heq]
        rw [if_neg (by omega)]
      · simp [hnum, h0]
      · rw [hwr1]
        simp [hnum, h0]

lemma unregister_spec {st : GlobalState} {es : List DefererEntry} {dq : DeferQueue}
    {ps : List (Nat × Nat)} (id : Nat)
    (hreg : st.registry = some es)
    (hfound : (es.findIdx? (fun e => e.tid == id)).isSome)
    (hinv : QueueInv dq ps) :
    ∃ st' q' es', rcu_defer_unregister_thread st id dq =
        some (st', q', ps,
          (UnregEvent.removed ::
            ((if ps = [] then [] else [UnregEvent.synced, UnregEvent.drained]) ++
              [UnregEvent.freed])) ++
            (if es.length = 1 then [UnregEvent.stopped] else [])) ∧
      q'.tail = q'.head ∧ st'.registry = some es' ∧ es'.length = es.length - 1 ∧
      st'.workerRunning = (if es.length = 1 then false else st.workerRunning) := by
  obtain ⟨i, hi⟩ := Option.isSome_iff_exists.mp hfound
  have hne : es ≠ [] := by
    intro hc
    subst hc
    simp [List.findIdx?] at hi
  have hlen1 : 1 ≤ es.length := List.length_pos.mpr hne
  obtain ⟨last, hlast⟩ := Option.isSome_iff_exists.mp
    (show es.getLast?.isSome by rwa [List.getLast?_isSome])
  have hrem : rcu_remove_deferer es id = some ((es.set i last).dropLast) := by
    simp [rcu_remove_deferer, hi, hlast]
  have hlen' : ((es.set i last).dropLast).length = es.length - 1 := by
    simp
  obtain ⟨he, hsz⟩ := hinv
  have htl := he.le
  by_cases hps : ps = []
  · subst hps
    have hth : dq.tail = dq.head := he.nil_inv.1
    have hbt : _rcu_defer_barrier_thread dq = some (dq, [], false) :=
      barrier_thread_empty (by omega)
    by_cases hone : es.length = 1
    · refine ⟨{ st with registry := some ((es.set i last).dropLast), workerRunning := false }, dq, (es.set i last).dropLast, ?_, hth, rfl, hlen', by simp [hone]⟩
      simp only [rcu_defer_unregister_thread, hreg, hrem, hbt]
      rw [if_pos (by omega)]
      simp [hone]
    · refine ⟨{ st with registry := some ((es.set i last).dropLast) }, dq, (es.set i last).dropLast, ?_, hth, rfl, hlen', by simp [hone]⟩
      simp only [rcu_defer_unregister_thread, hreg, hrem, hbt]
      rw [if_neg (by omega)]
      simp [hone]
  · have hne0 : dq.head - dq.tail ≠ 0 := by
      intro hc
      have hth : dq.tail = dq.head := by omega
      have he' := he
      rw [← hth] at he'
      exact hps he'.self_inv.2
    have hbt := barrier_thread_encoded he hne0
    by_cases hone : es.length = 1
    · refine ⟨{ st with registry := some ((es.set i last).dropLast), workerRunning := false }, { dq with tail := dq.head, last_fct_out := dq.last_fct_in }, (es.set i last).dropLast, ?_, rfl, rfl, hlen', by simp [hone]⟩
      simp only [rcu_defer_unregister_thread, hreg, hrem, hbt]
      rw [if_pos (by omega)]
      simp [hone, hps]
    · refine ⟨{ st with registry := some ((es.set i last).dropLast) }, { dq with tail := dq.head, last_fct_out := dq.last_fct_in }, (es.set i last).dropLast, ?_, rfl, rfl, hlen', by simp [hone]⟩
      simp only [rcu_defer_unregister_thread, hreg, hrem, hbt]
      rw [if_neg (by omega)]
      simp [hone, hps]

/-- A one-item concrete caller queue (one bare argument slot). -/
def sampleQueue : DeferQueue := ⟨1, 0, 2, 2, fun _ => 42⟩

/-- A concrete one-thread registry state with the worker running. -/
def sampleState : GlobalState := ⟨some [⟨7, sampleQueue, true, 0⟩], 4, true⟩

/-- The all-zero global state (registry never allocated, worker stopped). -/
def emptyState : GlobalState := ⟨none, 0, false⟩

/-- A zero-initialized thread-local queue. -/
def zeroQueue : DeferQueue := ⟨0, 0, 0, 0, fun _ => 0⟩

/-- C5 counterexample: at a concrete registered state with one pending
callback, the event trace of `rcu_defer_unregister_thread` is
`removed, synced, drained, freed, stopped` — the registry entry is removed
BEFORE the grace period, the drain and the free, so the claimed order
"drains, frees its buffer, removes its entry, stops the worker" is not the
order the code performs. -/
theorem claim_C5_counterexample :
    (rcu_defer_unregister_thread sampleState 7 sampleQueue).map (fun r => r.2.2.2) =
      some [UnregEvent.removed, UnregEvent.synced, UnregEvent.drained,
        UnregEvent.freed, UnregEvent.stopped] ∧
    (rcu_defer_unregister_thread sampleState 7 sampleQueue).map (fun r => r.2.2.2) ≠
      some [UnregEvent.synced, UnregEvent.drained, UnregEvent.freed,
        UnregEvent.removed, UnregEvent.stopped] := by
  decide

/-- C5 (amended): for a registered caller, `rcu_defer_unregister_thread`
performs, in order: it removes the caller's registry entry, then drains the
caller's queue under a grace period (when non-empty), then frees its buffer,
and stops the worker if the caller was the last registered thread.
Consequently every callback enqueued by the caller before the call has been
executed by the time the call returns, and the caller's queue is empty. -/
theorem claim_C5_unregister_sequence {st : GlobalState} {es : List DefererEntry}
    {dq : DeferQueue} {ps : List (Nat × Nat)} (id : Nat)
    (hreg : st.registry = some es)
    (hfound : (es.findIdx? (fun e => e.tid == id)).isSome)
    (hinv : QueueInv dq ps) :
    ∃ st' q' es', rcu_defer_unregister_thread st id dq =
        some (st', q', ps,
          (UnregEvent.removed ::
            ((if ps = [] then [] else [UnregEvent.synced, UnregEvent.drained]) ++
              [UnregEvent.freed])) ++
            (if es.length = 1 then [UnregEvent.stopped] else [])) ∧
      q'.tail = q'.head ∧ st'.registry = some es' ∧ es'.length = es.length - 1 ∧
      st'.workerRunning = (if es.length = 1 then false else st.workerRunning) :=
  unregister_spec id hreg hfound hinv

/-- Witness: the amended C5 at the concrete one-thread state. -/
theorem claim_C5_unregister_sequence_witness :
    ∃ st' q' es', rcu_defer_unregister_thread sampleState 7 sampleQueue =
        some (st', q', [(2, 42)],
          (UnregEvent.removed ::
            ((if [(2, 42)] = ([] : List (Nat × Nat)) then []
              else [UnregEvent.synced, UnregEvent.drained]) ++
              [UnregEvent.freed])) ++
            (if [(⟨7, sampleQueue, true, 0⟩ : DefererEntry)].length = 1
              then [UnregEvent.stopped] else [])) ∧
      q'.tail = q'.head ∧ st'.registry = some es' ∧
      es'.length = [(⟨7, sampleQueue, true, 0⟩ : DefererEntry)].length - 1 ∧
      st'.workerRunning = (if [(⟨7, sampleQueue, true, 0⟩ : DefererEntry)].length = 1
        then false else sampleState.workerRunning) :=
  @claim_C5_unregister_sequence sampleState
    [⟨7, sampleQueue, true, 0⟩] sampleQueue [(2, 42)] 7
    rfl (by decide)
    ⟨encodedRange_const_args 42 (by decide) (by decide) 2 1 0, by decide⟩

/-- C6 (code bug): the source checks no allocation result.  When the
queue-buffer malloc fails during `rcu_defer_register_thread` (modelled
`qAlloc = false`, i.e. `defer_queue.q = NULL`), the call still succeeds, the
thread IS registered — its entry records the NULL buffer — and the worker IS
started, contradicting the claim that the call fails, no entry is added and
the worker is not started.  When the registry-array malloc fails, the
append dereferences the NULL registry (modelled `none`: a crash, not a clean
failure). -/
theorem claim_C6_alloc_failure_not_handled :
    (∃ st', rcu_defer_register_thread emptyState 17 zeroQueue false true true =
        some (st', true) ∧
      numDeferers st' = 1 ∧ st'.workerRunning = true ∧
      (st'.registry.getD []).map (fun e => e.qAllocated) = [false]) ∧
    rcu_defer_register_thread emptyState 18 zeroQueue true false true = none := by
  constructor
  · exact ⟨_, rfl, rfl, rfl, rfl⟩
  · rfl

/-- C8: Worker lifecycle.  With allocations succeeding, registration starts
the worker exactly when the registered count transitions 0→1, and
unregistration stops the worker (the `stopped` event: cancel, wake, join)
exactly on the 1→0 transition; both operations preserve the invariant "the
worker thread exists exactly while the registry is non-empty". -/
theorem claim_C8_worker_lifecycle :
    (∀ (st : GlobalState) (id : Nat) (dq : DeferQueue),
      (st.workerRunning = true ↔ 0 < numDeferers st) →
      ∃ st' started, rcu_defer_register_thread st id dq true true true = some (st', started) ∧
        (started = true ↔ numDeferers st = 0) ∧
        numDeferers st' = numDeferers st + 1 ∧
        (st'.workerRunning = true ↔ 0 < numDeferers st')) ∧
    (∀ (st : GlobalState) (es : List DefererEntry) (id : Nat) (dq : DeferQueue)
      (ps : List (Nat × Nat)),
      st.registry = some es →
      (es.findIdx? (fun e => e.tid == id)).isSome →
      QueueInv dq ps →
      (st.workerRunning = true ↔ 0 < numDeferers st) →
      ∃ st' q' calls ev, rcu_defer_unregister_thread st id dq = some (st', q', calls, ev) ∧
        (UnregEvent.stopped ∈ ev ↔ numDeferers st = 1) ∧
        numDeferers st' = numDeferers st - 1 ∧
        (st'.workerRunning = true ↔ 0 < numDeferers st')) := by
  constructor
  · intro st id dq hW
    obtain ⟨st', started, heq, hnum, hstart, hwr⟩ := register_spec st id dq true
    refine ⟨st', started, heq, hstart, hnum, ?_⟩
    rw [hwr, hnum]
    by_cases h0 : numDeferers st = 0
    · rw [if_pos h0]
      simp
    · rw [if_neg h0]
      have hw : st.workerRunning = true := hW.mpr (by omega)
      constructor
      · intro
        omega
      · intro
        exact hw
  · intro st es id dq ps hreg hfound hinv hW
    obtain ⟨st', q', es', heq, hq, hreg', hlen, hwr⟩ := unregister_spec id hreg hfound hinv
    have hnum : numDeferers st = es.length := by simp [numDeferers, hreg]
    have hnum' : numDeferers st' = es'.length := by simp [numDeferers, hreg']
    have hne : es ≠ [] := by
      intro hc
      subst hc
      simp [List.findIdx?] at hfound
    have hlen1 : 1 ≤ es.length := List.length_pos.mpr hne
    refine ⟨st', q', ps, _, heq, ?_, by omega, ?_⟩
    · by_cases hone : es.length = 1 <;> by_cases hps : ps = [] <;>
        simp [hone, hps, hnum]
    · rw [hwr]
      by_cases hone : es.length = 1
      · rw [if_pos hone]
        have h0 : numDeferers st' = 0 := by omega
        simp [h0]
      · rw [if_neg hone]
        have hw : st.workerRunning = true := hW.mpr (by omega)
        have hpos : 0 < numDeferers st' := by omega
        simp [hw, hpos]

/-- Witness: C8 registration from the empty state (0→1 starts the worker)
and unregistration of the only registered thread (1→0 stops it). -/
theorem claim_C8_worker_lifecycle_witness :
    (∃ st' started, rcu_defer_register_thread emptyState 3 zeroQueue true true true =
        some (st', started) ∧
      (started = true ↔ numDeferers emptyState = 0) ∧
      numDeferers st' = numDeferers emptyState + 1 ∧
      (st'.workerRunning = true ↔ 0 < numDeferers st')) ∧
    (∃ st' q' calls ev, rcu_defer_unregister_thread sampleState 7 sampleQueue =
        some (st', q', calls, ev) ∧
      (UnregEvent.stopped ∈ ev ↔ numDeferers sampleState = 1) ∧
      numDeferers st' = numDeferers sampleState - 1 ∧
      (st'.workerRunning = true ↔ 0 < numDeferers st')) :=
  ⟨claim_C8_worker_lifecycle.1 emptyState 3 zeroQueue (by decide),
   claim_C8_worker_lifecycle.2 sampleState [⟨7, sampleQueue, true, 0⟩] 7 sampleQueue
     [(2, 42)] rfl (by decide)
     ⟨encodedRange_const_args 42 (by decide) (by decide) 2 1 0, by decide⟩
     (by decide)⟩

/-- C9: Registry mechanics.  The registry starts with capacity
`INIT_NUM_THREADS = 4`; an add into an unallocated registry creates it with
that capacity and one entry `(tid, queue, last_head = 0)`; an add into an
allocated registry appends the entry, increments the count, and doubles the
capacity (`<<< 1`) exactly when the add would exceed it, preserving all
existing entries — the capacity never shrinks; remove locates the entry by
thread-handle equality, overwrites it with the last entry, drops the last
slot and decrements the count, and hits `assert(0)` (modelled `none`) when
the thread is not found. -/
theorem claim_C9_registry_mechanics :
    INIT_NUM_THREADS = 4 ∧
    (∀ (st : GlobalState) (id : Nat) (dq : DeferQueue) (qa growOk : Bool),
      st.registry = none →
      rcu_add_deferer st id dq qa true growOk =
        some { st with registry := some [⟨id, dq, qa, 0⟩], alloc_deferers := INIT_NUM_THREADS }) ∧
    (∀ (st : GlobalState) (es : List DefererEntry) (id : Nat) (dq : DeferQueue) (qa : Bool),
      st.registry = some es →
      ∃ st', rcu_add_deferer st id dq qa true true = some st' ∧
        st'.registry = some (es ++ [⟨id, dq, qa, 0⟩]) ∧
        st.alloc_deferers ≤ st'.alloc_deferers ∧
        st'.alloc_deferers = (if st.alloc_deferers < es.length + 1
          then st.alloc_deferers <<< 1 else st.alloc_deferers) ∧
        numDeferers st' = numDeferers st + 1) ∧
    (∀ (es : List DefererEntry) (id i : Nat) (last : DefererEntry),
      es.findIdx? (fun e => e.tid == id) = some i → es.getLast? = some last →
      rcu_remove_deferer es id = some ((es.set i last).dropLast) ∧
      ((es.set i last).dropLast).length = es.length - 1) ∧
    (∀ (es : List DefererEntry) (id : Nat),
      es.findIdx? (fun e => e.tid == id) = none → rcu_remove_deferer es id = none) := by
  refine ⟨rfl, ?_, ?_, ?_, ?_⟩
  · intro st id dq qa growOk hreg
    simp [rcu_add_deferer, hreg]
  · intro st es id dq qa hreg
    obtain ⟨st', heq, h1, h2, h3, h4, h5⟩ := add_deferer_some_spec id dq qa hreg
    exact ⟨st', heq, h1, h3, h4, h5⟩
  · intro es id i last hidx hlast
    exact ⟨by simp [rcu_remove_deferer, hidx, hlast], by simp⟩
  · intro es id hidx
    simp [rcu_remove_deferer, hidx]

/-- Witness: C9 at concrete registries — fresh allocation, append without
growth, remove of a present thread, remove of an absent thread. -/
theorem claim_C9_registry_mechanics_witness :
    (rcu_add_deferer emptyState 5 zeroQueue true true true =
      some { emptyState with registry := some [⟨5, zeroQueue, true, 0⟩], alloc_deferers := INIT_NUM_THREADS }) ∧
    (∃ st', rcu_add_deferer sampleState 9 zeroQueue true true true = some st' ∧
      st'.registry = some ([⟨7, sampleQueue, true, 0⟩] ++ [⟨9, zeroQueue, true, 0⟩]) ∧
      sampleState.alloc_deferers ≤ st'.alloc_deferers ∧
      st'.alloc_deferers = (if sampleState.alloc_deferers <
          [(⟨7, sampleQueue, true, 0⟩ : DefererEntry)].length + 1
        then sampleState.alloc_deferers <<< 1 else sampleState.alloc_deferers) ∧
      numDeferers st' = numDeferers sampleState + 1) ∧
    (rcu_remove_deferer [⟨7, sampleQueue, true, 0⟩] 7 =
        some (([(⟨7, sampleQueue, true, 0⟩ : DefererEntry)].set 0
          ⟨7, sampleQueue, true, 0⟩).dropLast) ∧
      (([(⟨7, sampleQueue, true, 0⟩ : DefererEntry)].set 0
          ⟨7, sampleQueue, true, 0⟩).dropLast).length =
        [(⟨7, sampleQueue, true, 0⟩ : DefererEntry)].length - 1) ∧
    rcu_remove_deferer [⟨7, sampleQueue, true, 0⟩] 99 = none :=
  ⟨claim_C9_registry_mechanics.2.1 emptyState 5 zeroQueue true true rfl,
   claim_C9_registry_mechanics.2.2.1 sampleState [⟨7, sampleQueue, true, 0⟩] 9 zeroQueue true rfl,
   claim_C9_registry_mechanics.2.2.2.1 [⟨7, sampleQueue, true, 0⟩] 7 0
     ⟨7, sampleQueue, true, 0⟩ rfl rfl,
   claim_C9_registry_mechanics.2.2.2.2 [⟨7, sampleQueue, true, 0⟩] 99 rfl⟩
